import Mathlib

/-!
Verification of the statistical core of the `binomialbias` package
(`binomialbias/main.py`): input normalization (`BinomialBias.__init__`),
validation (`BinomialBias.validate`) and the statistics
(`BinomialBias.calculate`), modelled over exact rationals, with reals where
the source takes square roots.
-/

namespace BinomialBias

/-- Python truthiness of `kwargs.pop('expected', None) or n_e`
(main.py lines 81-82): a missing or zero keyword falls back to the default. -/
def orDefault (supplied : Option ℚ) (dflt : ℚ) : ℚ :=
  match supplied with
  | none => dflt
  | some v => if v = 0 then dflt else v

/-- Input normalization from `BinomialBias.__init__` (main.py lines 80-88):
the deprecated `expected`/`actual` keywords override `n_e`/`n_a` when truthy;
a value strictly between 0 and 1 is reinterpreted as a fraction `f_e`/`f_a`
(overriding an explicitly passed fraction), and fractions are scaled by `n`. -/
def initCounts (n : ℕ) (n_e n_a : ℚ) (expectedKw actualKw fe0 fa0 : Option ℚ) :
    ℚ × ℚ :=
  let expected := orDefault expectedKw n_e
  let actual := orDefault actualKw n_a
  let fe : Option ℚ := if 0 < expected ∧ expected < 1 then some expected else fe0
  let fa : Option ℚ := if 0 < actual ∧ actual < 1 then some actual else fa0
  let expected := match fe with | some f => f * n | none => expected
  let actual := match fa with | some f => f * n | none => actual
  (expected, actual)

/-- `BinomialBias.validate` (main.py lines 108-122): the four checks in
source order, raising `ValueError` on the first failure. -/
def validate (n : ℕ) (expected actual : ℚ) : Except String Unit :=
  if n < 2 then
    .error "There must be >=2 appointments"
  else if expected < 1 then
    .error "There must be >=1 expected appointments"
  else if (n : ℚ) ≤ expected then
    .error "Expected appointments must be less than total appointments"
  else if (n : ℚ) < actual then
    .error "Actual appointments must be less than or equal to total appointments"
  else
    .ok ()

/-- The binomial probability mass function `st.binom.pmf(k, n, p)`
(main.py lines 136-137), in exact arithmetic. -/
def binomPmf (n : ℕ) (p : ℚ) (k : ℕ) : ℚ :=
  (n.choose k : ℚ) * p ^ k * (1 - p) ^ (n - k)

/-- The dense pmf array `st.binom.pmf(x, n, p)` over support `x = 0..n`
(main.py lines 133, 136-137). -/
def pmfArray (n : ℕ) (p : ℚ) : List ℚ :=
  (List.range (n + 1)).map (binomPmf n p)

/-- The preference ratio (main.py lines 142-145); `np.inf` is the top
element of `WithTop ℚ`. -/
def biasRatio (n : ℕ) (expected actual : ℚ) : WithTop ℚ :=
  if 0 < actual then
    (((((n : ℚ) - actual) / ((n : ℚ) - expected)) / (actual / expected) : ℚ) : WithTop ℚ)
  else
    ⊤

/-- `cum_prob` (main.py lines 146-149): the masked sums
`sum(e_pmf[x<=actual])` / `sum(e_pmf[x>=actual])`, chosen by
`self.one_sided or actual <= expect`. -/
def cumProb (n : ℕ) (expected actual : ℚ) (one_sided : Bool) : ℚ :=
  if one_sided = true ∨ actual ≤ expected then
    (((List.range (n + 1)).filter (fun k : ℕ => decide ((k : ℚ) ≤ actual))).map
      (binomPmf n (expected / n))).sum
  else
    (((List.range (n + 1)).filter (fun k : ℕ => decide (actual ≤ (k : ℚ)))).map
      (binomPmf n (expected / n))).sum

/-- Lower Gaussian confidence bound `int(max(0, np.ceil(mean - 2*std)))`
with `mean = n*f`, `std = sqrt(mean*(1-f))` (main.py lines 152-156, 160-164). -/
noncomputable def gaussLow (n : ℕ) (f : ℚ) : ℤ :=
  max 0 ⌈(n : ℝ) * (f : ℝ) - 2 * Real.sqrt ((n : ℝ) * (f : ℝ) * (1 - (f : ℝ)))⌉

/-- Upper Gaussian confidence bound `int(min(n, np.floor(mean + 2*std)))`
(main.py lines 153-157, 161-165). -/
noncomputable def gaussHigh (n : ℕ) (f : ℚ) : ℤ :=
  min (n : ℤ) ⌊(n : ℝ) * (f : ℝ) + 2 * Real.sqrt ((n : ℝ) * (f : ℝ) * (1 - (f : ℝ)))⌋

/-- `p_future = sum(a_pmf[e_low:e_high+1])` (main.py line 168), with the
Python slice modelled by `drop`/`take` on the dense pmf array. -/
noncomputable def pFuture (n : ℕ) (expected actual : ℚ) : ℚ :=
  let lo := (gaussLow n (expected / n)).toNat
  let hi := gaussHigh n (expected / n)
  (((pmfArray n (actual / n)).drop lo).take (hi + 1 - (lo : ℤ)).toNat).sum

/-- The fields stored in `self.results` and `self.plot_results`
(main.py lines 170-194). -/
structure Results where
  n : ℕ
  expected : ℚ
  actual : ℚ
  f_expected : ℚ
  f_actual : ℚ
  expected_low : ℤ
  expected_high : ℤ
  cum_prob : ℚ
  bias : WithTop ℚ
  p_future : ℚ
  x : List ℕ
  e_pmf : List ℚ
  a_pmf : List ℚ
  actual_low : ℤ
  actual_high : ℤ

/-- `BinomialBias.calculate` (main.py lines 125-196). -/
noncomputable def calculate (n : ℕ) (expected actual : ℚ) (one_sided : Bool) :
    Results where
  n := n
  expected := expected
  actual := actual
  f_expected := expected / n
  f_actual := actual / n
  expected_low := gaussLow n (expected / n)
  expected_high := gaussHigh n (expected / n)
  cum_prob := cumProb n expected actual one_sided
  bias := biasRatio n expected actual
  p_future := pFuture n expected actual
  x := List.range (n + 1)
  e_pmf := pmfArray n (expected / n)
  a_pmf := pmfArray n (actual / n)
  actual_low := gaussLow n (actual / n)
  actual_high := gaussHigh n (actual / n)

/-- `BinomialBias.__init__` (main.py lines 44-105): normalize the inputs,
validate, and only on success compute the results record. -/
noncomputable def construct (n : ℕ) (n_e n_a : ℚ) (fe0 fa0 : Option ℚ)
    (one_sided : Bool) (expectedKw actualKw : Option ℚ) : Except String Results :=
  let p := initCounts n n_e n_a expectedKw actualKw fe0 fa0
  match validate n p.1 p.2 with
  | .error msg => .error msg
  | .ok _ => .ok (calculate n p.1 p.2 one_sided)

/-! Helper lemmas about list sums, the binomial theorem, and slices. -/

theorem sum_map_range (f : ℕ → ℚ) (m : ℕ) :
    ((List.range m).map f).sum = ∑ k in Finset.range m, f k := by
  induction m with
  | zero => simp
  | succ m ih =>
      rw [List.range_succ, List.map_append, List.sum_append, Finset.sum_range_succ, ih]
      simp

theorem sum_map_filter (q : ℕ → Bool) (f : ℕ → ℚ) (l : List ℕ) :
    ((l.filter q).map f).sum = (l.map fun k => if q k then f k else 0).sum := by
  induction l with
  | nil => simp
  | cons a l ih => by_cases h : q a <;> simp [List.filter_cons, h, ih]

theorem range'_drop (t : ℕ) : ∀ s len : ℕ,
    (List.range' s len).drop t = List.range' (s + t) (len - t) := by
  induction t with
  | zero => intro s len; simp
  | succ t ih =>
      intro s len
      cases len with
      | zero => simp
      | succ len =>
          rw [List.range'_succ, List.drop_succ_cons, ih]
          congr 1 <;> omega

theorem range'_take (t : ℕ) : ∀ s len : ℕ,
    (List.range' s len).take t = List.range' s (min t len) := by
  induction t with
  | zero => intro s len; simp
  | succ t ih =>
      intro s len
      cases len with
      | zero => simp
      | succ len =>
          rw [List.range'_succ, List.take_succ_cons, ih]
          rw [show min (t + 1) (len + 1) = min t len + 1 by omega, List.range'_succ]

theorem sum_map_range' (f : ℕ → ℚ) (len : ℕ) : ∀ s : ℕ,
    ((List.range' s len).map f).sum = ∑ k in Finset.Ico s (s + len), f k := by
  induction len with
  | zero => intro s; simp
  | succ len ih =>
      intro s
      rw [List.range'_succ, List.map_cons, List.sum_cons, ih,
        show s + (len + 1) = s + 1 + len from by omega,
        Finset.sum_eq_sum_Ico_succ_bot (by omega : s < s + 1 + len)]

theorem slice_sum (f : ℕ → ℚ) (m lo t : ℕ) :
    ((((List.range m).map f).drop lo).take t).sum =
      ∑ k in Finset.Ico lo (min (lo + t) m), f k := by
  rw [List.range_eq_range', ← List.map_drop, ← List.map_take, range'_drop, range'_take,
    sum_map_range']
  have hset : Finset.Ico (0 + lo) (0 + lo + min t (m - lo)) = Finset.Ico lo (min (lo + t) m) := by
    ext k
    simp only [Finset.mem_Ico]
    omega
  rw [hset]

theorem sum_range_binomPmf (n : ℕ) (p : ℚ) :
    ∑ k in Finset.range (n + 1), binomPmf n p k = 1 := by
  calc ∑ k in Finset.range (n + 1), binomPmf n p k
      = ∑ k in Finset.range (n + 1), p ^ k * (1 - p) ^ (n - k) * (n.choose k : ℚ) :=
        Finset.sum_congr rfl (fun k _ => by unfold binomPmf; ring)
    _ = (p + (1 - p)) ^ n := (add_pow p (1 - p) n).symm
    _ = 1 := by rw [show p + (1 - p) = 1 by ring, one_pow]

theorem binomPmf_nonneg {p : ℚ} (h0 : 0 ≤ p) (h1 : p ≤ 1) (n k : ℕ) :
    0 ≤ binomPmf n p k := by
  unfold binomPmf
  have h2 : (0 : ℚ) ≤ 1 - p := by linarith
  positivity

theorem cumProb_bounds (n : ℕ) (e a : ℚ) (os : Bool) (h0 : 0 ≤ e / n) (h1 : e / n ≤ 1) :
    0 ≤ cumProb n e a os ∧ cumProb n e a os ≤ 1 := by
  have key : ∀ q : ℕ → Bool,
      0 ≤ (((List.range (n + 1)).filter q).map (binomPmf n (e / n))).sum ∧
      (((List.range (n + 1)).filter q).map (binomPmf n (e / n))).sum ≤ 1 := by
    intro q
    rw [sum_map_filter, sum_map_range]
    constructor
    · exact Finset.sum_nonneg fun k _ => by
        by_cases h : q k <;> simp [h, binomPmf_nonneg h0 h1]
    · calc ∑ k in Finset.range (n + 1), (if q k then binomPmf n (e / n) k else 0)
          ≤ ∑ k in Finset.range (n + 1), binomPmf n (e / n) k :=
            Finset.sum_le_sum fun k _ => by
              by_cases h : q k <;> simp [h, binomPmf_nonneg h0 h1]
        _ = 1 := sum_range_binomPmf n _
  unfold cumProb
  split
  · exact key _
  · exact key _

theorem cumProb_low (n : ℕ) (e : ℚ) (a : ℕ) (os : Bool) (ha : a ≤ n)
    (h : os = true ∨ (a : ℚ) ≤ e) :
    cumProb n e (a : ℚ) os = ∑ k in Finset.Icc 0 a, binomPmf n (e / n) k := by
  have hfilter : (Finset.range (n + 1)).filter
      (fun k : ℕ => decide ((k : ℚ) ≤ ((a : ℕ) : ℚ)) = true) = Finset.Icc 0 a := by
    ext k
    simp only [Finset.mem_filter, Finset.mem_range, Finset.mem_Icc, decide_eq_true_eq,
      Nat.cast_le]
    omega
  unfold cumProb
  rw [if_pos h, sum_map_filter, sum_map_range, ← Finset.sum_filter, hfilter]

theorem cumProb_high (n : ℕ) (e : ℚ) (a : ℕ) (ha : a ≤ n) (hgt : e < (a : ℚ)) :
    cumProb n e (a : ℚ) false = ∑ k in Finset.Icc a n, binomPmf n (e / n) k := by
  have hfilter : (Finset.range (n + 1)).filter
      (fun k : ℕ => decide (((a : ℕ) : ℚ) ≤ (k : ℚ)) = true) = Finset.Icc a n := by
    ext k
    simp only [Finset.mem_filter, Finset.mem_range, Finset.mem_Icc, decide_eq_true_eq,
      Nat.cast_le]
    omega
  unfold cumProb
  rw [if_neg (by push_neg; exact ⟨Bool.false_ne_true, hgt⟩),
    sum_map_filter, sum_map_range, ← Finset.sum_filter, hfilter]

theorem pFuture_eq (n : ℕ) (e a : ℚ) (h0 : 0 ≤ gaussLow n (e / n))
    (h1 : gaussLow n (e / n) ≤ gaussHigh n (e / n)) (h2 : gaussHigh n (e / n) ≤ (n : ℤ)) :
    pFuture n e a = ∑ k in Finset.Icc (gaussLow n (e / n)).toNat (gaussHigh n (e / n)).toNat,
      binomPmf n (a / n) k := by
  unfold pFuture pmfArray
  rw [slice_sum]
  have harg : min ((gaussLow n (e / n)).toNat +
      ((gaussHigh n (e / n)) + 1 - ((gaussLow n (e / n)).toNat : ℤ)).toNat) (n + 1) =
      (gaussHigh n (e / n)).toNat + 1 := by omega
  rw [harg, Nat.Ico_succ_right]

theorem pFuture_bounds (n : ℕ) (e a : ℚ) (h0 : 0 ≤ a / n) (h1 : a / n ≤ 1) :
    0 ≤ pFuture n e a ∧ pFuture n e a ≤ 1 := by
  unfold pFuture pmfArray
  rw [slice_sum]
  constructor
  · exact Finset.sum_nonneg fun k _ => binomPmf_nonneg h0 h1 n k
  · calc (∑ k in Finset.Ico ((gaussLow n (e / n)).toNat)
          (min ((gaussLow n (e / n)).toNat +
            ((gaussHigh n (e / n)) + 1 - ((gaussLow n (e / n)).toNat : ℤ)).toNat) (n + 1)),
          binomPmf n (a / n) k)
        ≤ ∑ k in Finset.range (n + 1), binomPmf n (a / n) k := by
          apply Finset.sum_le_sum_of_subset_of_nonneg
          · intro k hk
            rw [Finset.mem_Ico] at hk
            rw [Finset.mem_range]
            omega
          · exact fun k _ _ => binomPmf_nonneg h0 h1 n k
      _ = 1 := sum_range_binomPmf n _

theorem gauss_core (n : ℕ) (g mu sigma : ℝ) (hg0 : 0 ≤ g) (hg1 : g ≤ 1)
    (hmu : mu = (n : ℝ) * g) (hs0 : 0 ≤ sigma) (hs2 : sigma ^ 2 = mu * (1 - g)) :
    (0 : ℤ) ≤ ⌊mu + 2 * sigma⌋ ∧ ⌈mu - 2 * sigma⌉ ≤ (n : ℤ) ∧
      ⌈mu - 2 * sigma⌉ ≤ ⌊mu + 2 * sigma⌋ := by
  have hn0 : (0 : ℝ) ≤ (n : ℝ) := Nat.cast_nonneg n
  have hmu0 : 0 ≤ mu := hmu ▸ mul_nonneg hn0 hg0
  have hmun : mu ≤ (n : ℝ) := by nlinarith
  have hfl : (0 : ℤ) ≤ ⌊mu + 2 * sigma⌋ := Int.le_floor.mpr (by push_cast; linarith)
  have hcl : ⌈mu - 2 * sigma⌉ ≤ (n : ℤ) := Int.ceil_le.mpr (by push_cast; linarith)
  refine ⟨hfl, hcl, ?_⟩
  by_cases hwide : 1 ≤ 4 * sigma
  · refine Int.le_floor.mpr (le_of_lt ?_)
    have h1 := Int.ceil_lt_add_one (mu - 2 * sigma)
    calc ((⌈mu - 2 * sigma⌉ : ℤ) : ℝ) < mu - 2 * sigma + 1 := h1
      _ ≤ mu + 2 * sigma := by linarith
  · push_neg at hwide
    by_cases hsm : mu ≤ 2 * sigma
    · calc ⌈mu - 2 * sigma⌉ ≤ 0 := Int.ceil_le.mpr (by push_cast; linarith)
        _ ≤ ⌊mu + 2 * sigma⌋ := hfl
    · push_neg at hsm
      have hmupos : 0 < mu := lt_of_le_of_lt (by positivity) hsm
      have hgpos : 0 < g := by
        rcases lt_or_le 0 g with h | h
        · exact h
        · exfalso
          have : mu ≤ 0 := hmu ▸ mul_nonpos_of_nonneg_of_nonpos hn0 h
          linarith
      have key : (n : ℝ) ≤ mu + 2 * sigma := by
        rcases le_or_lt (1 - g) 0 with hone | hone
        · nlinarith
        · have hmu4 : mu > 4 * (1 - g) := by nlinarith
          have hssq : sigma ^ 2 < 1 / 16 := by nlinarith
          have hgbig : g > 7 / 8 := by nlinarith
          have hng : (n : ℝ) * (1 - g) * g = sigma ^ 2 := by rw [hs2, hmu]; ring
          have hle : (n : ℝ) * (1 - g) ≤ 2 * sigma := by
            rcases eq_or_lt_of_le hs0 with hz | hz
            · have h0 : (n : ℝ) * (1 - g) * g = 0 := by rw [hng, ← hz]; ring
              have h1 : (n : ℝ) * (1 - g) = 0 := by
                rcases mul_eq_zero.mp h0 with h | h
                · exact h
                · exact absurd h (ne_of_gt hgpos)
              linarith
            · have hs2g : sigma ≤ 2 * g := by nlinarith
              nlinarith
          nlinarith
      calc ⌈mu - 2 * sigma⌉ ≤ (n : ℤ) := hcl
        _ ≤ ⌊mu + 2 * sigma⌋ := Int.le_floor.mpr (by push_cast; exact key)

theorem gauss_bounds (n : ℕ) (f : ℚ) (hf0 : 0 ≤ f) (hf1 : f ≤ 1) :
    0 ≤ gaussLow n f ∧ gaussLow n f ≤ gaussHigh n f ∧ gaussHigh n f ≤ (n : ℤ) := by
  have hg0 : (0 : ℝ) ≤ (f : ℝ) := by exact_mod_cast hf0
  have hg1 : (f : ℝ) ≤ 1 := by exact_mod_cast hf1
  have hv0 : 0 ≤ (n : ℝ) * (f : ℝ) * (1 - (f : ℝ)) := by
    have hn0 : (0 : ℝ) ≤ (n : ℝ) := Nat.cast_nonneg n
    have : (0 : ℝ) ≤ 1 - (f : ℝ) := by linarith
    positivity
  obtain ⟨hfl, hcl, hmain⟩ := gauss_core n (f : ℝ) ((n : ℝ) * (f : ℝ))
    (Real.sqrt ((n : ℝ) * (f : ℝ) * (1 - (f : ℝ)))) hg0 hg1 rfl
    (Real.sqrt_nonneg _) (Real.sq_sqrt hv0)
  unfold gaussLow gaussHigh
  refine ⟨le_max_left _ _, ?_, min_le_left _ _⟩
  rw [max_le_iff, le_min_iff, le_min_iff]
  exact ⟨⟨Int.natCast_nonneg n, hfl⟩, hcl, hmain⟩

theorem validate_ok_iff (n : ℕ) (e a : ℚ) :
    validate n e a = .ok () ↔ (2 ≤ n ∧ 1 ≤ e ∧ e < (n : ℚ) ∧ a ≤ (n : ℚ)) := by
  unfold validate
  split_ifs with h1 h2 h3 h4
  · exact iff_of_false (by simp) (by rintro ⟨c, -, -, -⟩; omega)
  · exact iff_of_false (by simp) (by rintro ⟨-, c, -, -⟩; linarith)
  · exact iff_of_false (by simp) (by rintro ⟨-, -, c, -⟩; linarith)
  · exact iff_of_false (by simp) (by rintro ⟨-, -, -, c⟩; linarith)
  · exact iff_of_true rfl ⟨by omega, not_lt.mp h2, not_le.mp h3, not_lt.mp h4⟩

theorem validate_error_iff (n : ℕ) (e a : ℚ) :
    (∃ msg, validate n e a = .error msg) ↔
      ¬(2 ≤ n ∧ 1 ≤ e ∧ e < (n : ℚ) ∧ a ≤ (n : ℚ)) := by
  constructor
  · rintro ⟨msg, hmsg⟩ hc
    rw [(validate_ok_iff n e a).mpr hc] at hmsg
    exact Except.noConfusion hmsg
  · intro hc
    unfold validate
    split_ifs with h1 h2 h3 h4
    · exact ⟨_, rfl⟩
    · exact ⟨_, rfl⟩
    · exact ⟨_, rfl⟩
    · exact ⟨_, rfl⟩
    · exact absurd ⟨by omega, not_lt.mp h2, not_le.mp h3, not_lt.mp h4⟩ hc

theorem construct_eq (n : ℕ) (n_e n_a : ℚ) (fe0 fa0 : Option ℚ) (os : Bool)
    (ekw akw : Option ℚ) (E A : ℚ) (h : initCounts n n_e n_a ekw akw fe0 fa0 = (E, A)) :
    construct n n_e n_a fe0 fa0 os ekw akw =
      match validate n E A with
      | .error msg => .error msg
      | .ok _ => .ok (calculate n E A os) := by
  simp only [construct, h]

/-! The claims. -/

/-- C1: for validated inputs, when `one_sided` is true or
`actual_count ≤ expected_count` the cumulative probability is the lower tail
`sum(e_pmf[0..actual_count])`; when `one_sided` is false and
`actual_count > expected_count` it is the upper tail
`sum(e_pmf[actual_count..n])`, with `e_pmf[k] = C(n,k) f_e^k (1-f_e)^(n-k)`,
`f_e = expected_count/n`. -/
theorem claim_C1_cum_prob_tail (n : ℕ) (expected : ℚ) (a : ℕ) (one_sided : Bool)
    (hn : 2 ≤ n) (he1 : 1 ≤ expected) (hen : expected < (n : ℚ)) (han : a ≤ n) :
    ((one_sided = true ∨ (a : ℚ) ≤ expected) →
      (calculate n expected (a : ℚ) one_sided).cum_prob =
        ∑ k in Finset.Icc 0 a,
          (n.choose k : ℚ) * (expected / n) ^ k * (1 - expected / n) ^ (n - k)) ∧
    ((one_sided = false ∧ expected < (a : ℚ)) →
      (calculate n expected (a : ℚ) one_sided).cum_prob =
        ∑ k in Finset.Icc a n,
          (n.choose k : ℚ) * (expected / n) ^ k * (1 - expected / n) ^ (n - k)) := by
  constructor
  · intro h
    show cumProb n expected (a : ℚ) one_sided = _
    exact cumProb_low n expected a one_sided han h
  · rintro ⟨hos, hgt⟩
    subst hos
    show cumProb n expected (a : ℚ) false = _
    exact cumProb_high n expected a han hgt

/-- Witness for C1 at `n=10, expected=5, actual=2, one_sided=true`. -/
theorem claim_C1_witness :
    (calculate 10 5 ((2 : ℕ) : ℚ) true).cum_prob =
      ∑ k in Finset.Icc 0 2,
        ((10).choose k : ℚ) * (5 / (10 : ℕ)) ^ k * (1 - 5 / (10 : ℕ)) ^ (10 - k) :=
  (claim_C1_cum_prob_tail 10 5 2 true (by decide) (by decide) (by decide)
    (by decide)).1 (Or.inl rfl)

/-- C2: for validated inputs with `actual_count > 0` the bias is
`((n-actual)/(n-expected))/(actual/expected)`; for `actual_count = 0` (with
`expected_count > 0` implied by validation) it is the `+infinity` sentinel. -/
theorem claim_C2_bias (n : ℕ) (expected actual : ℚ) (one_sided : Bool)
    (hn : 2 ≤ n) (he1 : 1 ≤ expected) (hen : expected < (n : ℚ)) (ha0 : 0 ≤ actual)
    (han : actual ≤ (n : ℚ)) :
    (0 < actual → (calculate n expected actual one_sided).bias =
      (((((n : ℚ) - actual) / ((n : ℚ) - expected)) / (actual / expected) : ℚ) : WithTop ℚ)) ∧
    (actual = 0 → (calculate n expected actual one_sided).bias = ⊤) := by
  constructor
  · intro h
    show biasRatio n expected actual = _
    unfold biasRatio
    rw [if_pos h]
  · intro h
    show biasRatio n expected actual = _
    unfold biasRatio
    rw [if_neg (by rw [h]; exact lt_irrefl 0)]

/-- Witness for C2 at `n=10, expected=5` with `actual=2` and `actual=0`. -/
theorem claim_C2_witness :
    ((calculate 10 5 (2 : ℚ) true).bias =
      (((((10 : ℕ) : ℚ) - 2) / (((10 : ℕ) : ℚ) - 5) / (2 / 5) : ℚ) : WithTop ℚ)) ∧
    (calculate 10 5 (0 : ℚ) true).bias = ⊤ :=
  ⟨(claim_C2_bias 10 5 2 true (by decide) (by decide) (by decide) (by decide)
      (by decide)).1 (by decide),
   (claim_C2_bias 10 5 0 true (by decide) (by decide) (by decide) (by decide)
      (by decide)).2 rfl⟩

/-- C3: the confidence bounds are `max(0, ceil(mu - 2*sigma))` and
`min(n, floor(mu + 2*sigma))` with `mu = n*f`, `sigma = sqrt(mu*(1-f))`,
at `f = f_e` for the expected interval and `f = f_a` for the actual one. -/
theorem claim_C3_ci_bounds (n : ℕ) (expected actual : ℚ) (one_sided : Bool) :
    ((calculate n expected actual one_sided).expected_low =
      max 0 ⌈(n : ℝ) * ((expected : ℝ) / (n : ℝ)) -
        2 * Real.sqrt ((n : ℝ) * ((expected : ℝ) / (n : ℝ)) * (1 - (expected : ℝ) / (n : ℝ)))⌉) ∧
    ((calculate n expected actual one_sided).expected_high =
      min (n : ℤ) ⌊(n : ℝ) * ((expected : ℝ) / (n : ℝ)) +
        2 * Real.sqrt ((n : ℝ) * ((expected : ℝ) / (n : ℝ)) * (1 - (expected : ℝ) / (n : ℝ)))⌋) ∧
    ((calculate n expected actual one_sided).actual_low =
      max 0 ⌈(n : ℝ) * ((actual : ℝ) / (n : ℝ)) -
        2 * Real.sqrt ((n : ℝ) * ((actual : ℝ) / (n : ℝ)) * (1 - (actual : ℝ) / (n : ℝ)))⌉) ∧
    ((calculate n expected actual one_sided).actual_high =
      min (n : ℤ) ⌊(n : ℝ) * ((actual : ℝ) / (n : ℝ)) +
        2 * Real.sqrt ((n : ℝ) * ((actual : ℝ) / (n : ℝ)) * (1 - (actual : ℝ) / (n : ℝ)))⌋) := by
  have he : ((expected / (n : ℕ) : ℚ) : ℝ) = (expected : ℝ) / (n : ℝ) := by push_cast; ring
  have ha : ((actual / (n : ℕ) : ℚ) : ℝ) = (actual : ℝ) / (n : ℝ) := by push_cast; ring
  refine ⟨?_, ?_, ?_, ?_⟩
  · show gaussLow n (expected / n) = _
    unfold gaussLow
    rw [he]
  · show gaussHigh n (expected / n) = _
    unfold gaussHigh
    rw [he]
  · show gaussLow n (actual / n) = _
    unfold gaussLow
    rw [ha]
  · show gaussHigh n (actual / n) = _
    unfold gaussHigh
    rw [ha]

/-- C4: for validated inputs, `p_future` is the sum of the actual-proportion
binomial pmf `a_pmf[k] = C(n,k) f_a^k (1-f_a)^(n-k)`, `f_a = actual_count/n`,
for `k` from `expected_low` to `expected_high` inclusive. -/
theorem claim_C4_p_future (n : ℕ) (expected actual : ℚ) (one_sided : Bool)
    (hn : 2 ≤ n) (he1 : 1 ≤ expected) (hen : expected < (n : ℚ)) (ha0 : 0 ≤ actual)
    (han : actual ≤ (n : ℚ)) :
    (calculate n expected actual one_sided).p_future =
      ∑ k in Finset.Icc ((calculate n expected actual one_sided).expected_low).toNat
          ((calculate n expected actual one_sided).expected_high).toNat,
        (n.choose k : ℚ) * (actual / n) ^ k * (1 - actual / n) ^ (n - k) := by
  have hnq : (0 : ℚ) < (n : ℚ) := by exact_mod_cast (by omega : 0 < n)
  have hf0 : (0 : ℚ) ≤ expected / n := div_nonneg (by linarith) (le_of_lt hnq)
  have hf1 : expected / n ≤ 1 := by rw [div_le_one hnq]; linarith
  obtain ⟨h0, h1, h2⟩ := gauss_bounds n (expected / n) hf0 hf1
  exact pFuture_eq n expected actual h0 h1 h2

/-- Witness for C4 at `n=10, expected=5, actual=2`. -/
theorem claim_C4_witness :
    (calculate 10 5 (2 : ℚ) true).p_future =
      ∑ k in Finset.Icc ((calculate 10 5 (2 : ℚ) true).expected_low).toNat
          ((calculate 10 5 (2 : ℚ) true).expected_high).toNat,
        ((10).choose k : ℚ) * (2 / (10 : ℕ)) ^ k * (1 - 2 / (10 : ℕ)) ^ (10 - k) :=
  claim_C4_p_future 10 5 2 true (by decide) (by decide) (by decide) (by decide) (by decide)

/-- C5: construction fails with a validation error exactly when `n < 2`, or
the normalized `expected_count < 1`, or `expected_count ≥ n`, or
`actual_count > n`; when all four checks pass, validation succeeds and the
computation proceeds. -/
theorem claim_C5_validation (n : ℕ) (n_e n_a : ℚ) (fe0 fa0 : Option ℚ)
    (one_sided : Bool) (ekw akw : Option ℚ) :
    ((∃ msg, construct n n_e n_a fe0 fa0 one_sided ekw akw = .error msg) ↔
      (n < 2 ∨ (initCounts n n_e n_a ekw akw fe0 fa0).1 < 1 ∨
        (n : ℚ) ≤ (initCounts n n_e n_a ekw akw fe0 fa0).1 ∨
        (n : ℚ) < (initCounts n n_e n_a ekw akw fe0 fa0).2)) ∧
    (¬(n < 2 ∨ (initCounts n n_e n_a ekw akw fe0 fa0).1 < 1 ∨
        (n : ℚ) ≤ (initCounts n n_e n_a ekw akw fe0 fa0).1 ∨
        (n : ℚ) < (initCounts n n_e n_a ekw akw fe0 fa0).2) →
      construct n n_e n_a fe0 fa0 one_sided ekw akw =
        .ok (calculate n (initCounts n n_e n_a ekw akw fe0 fa0).1
          (initCounts n n_e n_a ekw akw fe0 fa0).2 one_sided)) := by
  set E := (initCounts n n_e n_a ekw akw fe0 fa0).1 with hE
  set A := (initCounts n n_e n_a ekw akw fe0 fa0).2 with hA
  have hcon := construct_eq n n_e n_a fe0 fa0 one_sided ekw akw E A (by rw [hE, hA])
  have hiff : (n < 2 ∨ E < 1 ∨ (n : ℚ) ≤ E ∨ (n : ℚ) < A) ↔
      ¬(2 ≤ n ∧ 1 ≤ E ∧ E < (n : ℚ) ∧ A ≤ (n : ℚ)) := by
    constructor
    · rintro (h | h | h | h) ⟨c1, c2, c3, c4⟩
      · omega
      · linarith
      · linarith
      · linarith
    · intro h
      by_contra hne
      push_neg at hne
      obtain ⟨g1, g2, g3, g4⟩ := hne
      exact h ⟨by omega, by linarith, by linarith, by linarith⟩
  constructor
  · rw [hiff, ← validate_error_iff n E A, hcon]
    cases hval : validate n E A with
    | error msg => simp [hval]
    | ok u =>
        cases u
        simp [hval]
  · intro h
    have hconj : 2 ≤ n ∧ 1 ≤ E ∧ E < (n : ℚ) ∧ A ≤ (n : ℚ) := by
      by_contra hc
      exact h (hiff.mpr hc)
    rw [hcon, (validate_ok_iff n E A).mpr hconj]

/-- Witness for C5: an invalid input (`n = 0`) yields a validation error. -/
theorem claim_C5_witness :
    ∃ msg, construct 0 0 0 none none true none none = .error msg :=
  (claim_C5_validation 0 0 0 none none true none none).1.mpr (Or.inl (by decide))

/-- C6: for validated inputs, `cum_prob` and `p_future` lie in `[0,1]`, both
confidence intervals are ordered and contained in `[0,n]`, and both pmf
arrays have length `n+1` and sum exactly to 1. -/
theorem claim_C6_invariants (n : ℕ) (expected actual : ℚ) (one_sided : Bool)
    (hn : 2 ≤ n) (he1 : 1 ≤ expected) (hen : expected < (n : ℚ)) (ha0 : 0 ≤ actual)
    (han : actual ≤ (n : ℚ)) :
    (0 ≤ (calculate n expected actual one_sided).cum_prob ∧
      (calculate n expected actual one_sided).cum_prob ≤ 1) ∧
    (0 ≤ (calculate n expected actual one_sided).p_future ∧
      (calculate n expected actual one_sided).p_future ≤ 1) ∧
    (0 ≤ (calculate n expected actual one_sided).expected_low ∧
      (calculate n expected actual one_sided).expected_low ≤
        (calculate n expected actual one_sided).expected_high ∧
      (calculate n expected actual one_sided).expected_high ≤ (n : ℤ)) ∧
    (0 ≤ (calculate n expected actual one_sided).actual_low ∧
      (calculate n expected actual one_sided).actual_low ≤
        (calculate n expected actual one_sided).actual_high ∧
      (calculate n expected actual one_sided).actual_high ≤ (n : ℤ)) ∧
    ((calculate n expected actual one_sided).e_pmf.length = n + 1 ∧
      (calculate n expected actual one_sided).a_pmf.length = n + 1 ∧
      (calculate n expected actual one_sided).e_pmf.sum = 1 ∧
      (calculate n expected actual one_sided).a_pmf.sum = 1) := by
  have hnq : (0 : ℚ) < (n : ℚ) := by exact_mod_cast (by omega : 0 < n)
  have hfe0 : (0 : ℚ) ≤ expected / n := div_nonneg (by linarith) (le_of_lt hnq)
  have hfe1 : expected / n ≤ 1 := by rw [div_le_one hnq]; linarith
  have hfa0 : (0 : ℚ) ≤ actual / n := div_nonneg ha0 (le_of_lt hnq)
  have hfa1 : actual / n ≤ 1 := by rw [div_le_one hnq]; linarith
  refine ⟨cumProb_bounds n expected actual one_sided hfe0 hfe1,
    pFuture_bounds n expected actual hfa0 hfa1,
    gauss_bounds n (expected / n) hfe0 hfe1,
    gauss_bounds n (actual / n) hfa0 hfa1,
    ?_, ?_, ?_, ?_⟩
  · show (pmfArray n (expected / n)).length = n + 1
    rw [pmfArray, List.length_map, List.length_range]
  · show (pmfArray n (actual / n)).length = n + 1
    rw [pmfArray, List.length_map, List.length_range]
  · show (pmfArray n (expected / n)).sum = 1
    rw [pmfArray, sum_map_range]
    exact sum_range_binomPmf n _
  · show (pmfArray n (actual / n)).sum = 1
    rw [pmfArray, sum_map_range]
    exact sum_range_binomPmf n _

/-- Witness for C6 at `n=16, expected=8, actual=8`. -/
theorem claim_C6_witness :
    0 ≤ (calculate 16 8 (8 : ℚ) true).cum_prob ∧
      (calculate 16 8 (8 : ℚ) true).cum_prob ≤ 1 :=
  (claim_C6_invariants 16 8 8 true (by decide) (by decide) (by decide) (by decide)
    (by decide)).1

/-- C7: a supplied expected/actual value is scaled by `n` exactly when it is
strictly between 0 and 1; any other value — including exactly 1 — is used as
an absolute count; and `expected=0.5, n=10` normalizes and computes
identically to `expected=5, n=10`. -/
theorem claim_C7_fraction_rule (n : ℕ) (v w u : ℚ) (hu : u ≠ 0) :
    ((initCounts n v w none none none none).1 = if 0 < v ∧ v < 1 then v * n else v) ∧
    ((initCounts n v w none none none none).2 = if 0 < w ∧ w < 1 then w * n else w) ∧
    ((initCounts n v w (some u) none none none).1 = if 0 < u ∧ u < 1 then u * n else u) ∧
    ((initCounts n v w none (some u) none none).2 = if 0 < u ∧ u < 1 then u * n else u) ∧
    ((initCounts n 1 w none none none none).1 = 1) ∧
    (initCounts 10 10 7 (some (1 / 2)) none none none =
      initCounts 10 10 7 (some 5) none none none) ∧
    (∀ os, construct 10 10 7 none none os (some (1 / 2)) none =
      construct 10 10 7 none none os (some 5) none) := by
  refine ⟨?_, ?_, ?_, ?_, ?_, ?_, fun os => ?_⟩
  · simp only [initCounts, orDefault]
    by_cases h : 0 < v ∧ v < 1 <;> simp [h]
  · simp only [initCounts, orDefault]
    by_cases h : 0 < w ∧ w < 1 <;> simp [h]
  · simp only [initCounts, orDefault, if_neg hu]
    by_cases h : 0 < u ∧ u < 1 <;> simp [h]
  · simp only [initCounts, orDefault, if_neg hu]
    by_cases h : 0 < u ∧ u < 1 <;> simp [h]
  · norm_num [initCounts, orDefault]
  · norm_num [initCounts, orDefault]
  · rw [construct_eq 10 10 7 none none os (some (1 / 2)) none 5 7
        (by norm_num [initCounts, orDefault]),
      construct_eq 10 10 7 none none os (some 5) none 5 7
        (by norm_num [initCounts, orDefault])]

/-- Witness for C7 at `n=10`, `u=1`: the boundary value 1 is kept as an
absolute count. -/
theorem claim_C7_witness :
    (initCounts 10 5 7 (some 1) none none none).1 =
      if 0 < (1 : ℚ) ∧ (1 : ℚ) < 1 then 1 * (10 : ℕ) else 1 :=
  (claim_C7_fraction_rule 10 5 7 1 (by decide)).2.2.1

/-- C8: when validation fails the error is raised during construction and no
results record exists: construction returns the error and can return no `ok`
value, so none of the statistical computation is observable. -/
theorem claim_C8_atomicity (n : ℕ) (n_e n_a : ℚ) (fe0 fa0 : Option ℚ)
    (one_sided : Bool) (ekw akw : Option ℚ)
    (hbad : ¬(2 ≤ n ∧ 1 ≤ (initCounts n n_e n_a ekw akw fe0 fa0).1 ∧
      (initCounts n n_e n_a ekw akw fe0 fa0).1 < (n : ℚ) ∧
      (initCounts n n_e n_a ekw akw fe0 fa0).2 ≤ (n : ℚ))) :
    (∃ msg, construct n n_e n_a fe0 fa0 one_sided ekw akw = .error msg) ∧
    (∀ r : Results, construct n n_e n_a fe0 fa0 one_sided ekw akw ≠ .ok r) := by
  obtain ⟨msg, hmsg⟩ := (validate_error_iff n _ _).mpr hbad
  have hcon : construct n n_e n_a fe0 fa0 one_sided ekw akw = .error msg := by
    rw [construct_eq n n_e n_a fe0 fa0 one_sided ekw akw
        (initCounts n n_e n_a ekw akw fe0 fa0).1
        (initCounts n n_e n_a ekw akw fe0 fa0).2 rfl, hmsg]
  exact ⟨⟨msg, hcon⟩, fun r hr => by rw [hcon] at hr; exact Except.noConfusion hr⟩

/-- Witness for C8 at the invalid input `n=10, n_e=11, n_a=5`. -/
theorem claim_C8_witness :
    ∃ msg, construct 10 11 5 none none true none none = .error msg :=
  (claim_C8_atomicity 10 11 5 none none true none none (by decide)).1

/-- C9: a 0 passed through the deprecated `expected`/`actual` keyword is
replaced by the default (`n_e = 10`, `n_a = 7`) before normalization and
validation; `n=20, expected=5, actual=0` computes with `actual_count = 7`. -/
theorem claim_C9_zero_keyword (n : ℕ) (n_e n_a : ℚ) (fe0 fa0 : Option ℚ) :
    (initCounts n n_e n_a (some 0) none fe0 fa0 =
      initCounts n n_e n_a none none fe0 fa0) ∧
    (initCounts n n_e n_a none (some 0) fe0 fa0 =
      initCounts n n_e n_a none none fe0 fa0) ∧
    (initCounts 20 10 7 (some 5) (some 0) none none = (5, 7)) ∧
    (construct 20 10 7 none none true (some 5) (some 0) = .ok (calculate 20 5 7 true)) := by
  refine ⟨?_, ?_, ?_, ?_⟩
  · simp [initCounts, orDefault]
  · simp [initCounts, orDefault]
  · norm_num [initCounts, orDefault]
  · rw [construct_eq 20 10 7 none none true (some 5) (some 0) 5 7
        (by norm_num [initCounts, orDefault]),
      (validate_ok_iff 20 5 7).mpr (by norm_num)]

/-- C10: a fractional input is multiplied by `n` with no rounding
(`expected=0.38, n=38` gives `expected_count = 14.44`, not an integer), and
the downstream formulas (proportion, tail comparison and pmf parameter, bias
ratio) are evaluated at that exact value while the pmf support stays the
integers `0..n`. -/
theorem claim_C10_fractional_counts :
    ((initCounts 38 10 7 (some (0.38 : ℚ)) (some 2) none none).1 = 14.44) ∧
    ((14.44 : ℚ) = 361 / 25 ∧ ¬∃ m : ℤ, (14.44 : ℚ) = (m : ℚ)) ∧
    ((calculate 38 (361 / 25 : ℚ) 2 false).f_expected = 19 / 50) ∧
    ((calculate 38 (361 / 25 : ℚ) 2 false).cum_prob =
      ∑ k in Finset.Icc 0 2,
        ((38).choose k : ℚ) * ((361 / 25) / (38 : ℕ)) ^ k *
          (1 - (361 / 25) / (38 : ℕ)) ^ (38 - k)) ∧
    ((calculate 38 (361 / 25 : ℚ) 2 false).bias =
      (((((38 : ℕ) : ℚ) - 2) / (((38 : ℕ) : ℚ) - 361 / 25) / (2 / (361 / 25)) : ℚ) :
        WithTop ℚ)) ∧
    ((calculate 38 (361 / 25 : ℚ) 2 false).x = List.range (38 + 1) ∧
      (calculate 38 (361 / 25 : ℚ) 2 false).e_pmf.length = 38 + 1) := by
  refine ⟨?_, ⟨by norm_num, ?_⟩, ?_, ?_, ?_, rfl, ?_⟩
  · norm_num [initCounts, orDefault]
  · rintro ⟨m, hm⟩
    have h1 : (361 : ℚ) = (m : ℚ) * 25 := by
      rw [show (14.44 : ℚ) = 361 / 25 from by norm_num] at hm
      field_simp at hm
      linarith
    have h2 : (361 : ℤ) = m * 25 := by exact_mod_cast h1
    omega
  · show (361 / 25 : ℚ) / ((38 : ℕ) : ℚ) = 19 / 50
    push_cast
    norm_num
  · have h2 : ((2 : ℕ) : ℚ) = (2 : ℚ) := by norm_num
    show cumProb 38 (361 / 25) (2 : ℚ) false = _
    rw [← h2]
    exact cumProb_low 38 (361 / 25) 2 false (by norm_num)
      (Or.inr (by push_cast; norm_num))
  · show biasRatio 38 (361 / 25) 2 = _
    unfold biasRatio
    rw [if_pos (by norm_num)]
  · show (pmfArray 38 _).length = 38 + 1
    rw [pmfArray, List.length_map, List.length_range]

end BinomialBias

